import Mathlib

/-!
Verification of `js-is-prime`.

A shallow embedding of the two functions of the repository,

* `buildPrimesSet` (`src/build-primes.js`), the sieve, and
* `isPrime` with its helper `_determineIsPrime` (`src/is-prime.js`),

followed by theorems about them.

Modelling conventions:

* JavaScript numbers that hold integers are `Int`.  Only integer arguments are considered.
* A JavaScript `Set` of integers is a `List Int` in insertion order without duplicates:
  `Set.prototype.add` is `setAdd`, `Set.prototype.delete` is `setDelete`, `has` is `∈`.
* Every loop is a function that recurses on a fuel counter and returns `none` when the fuel
  runs out.  The top-level functions pass a fuel that is shown to be enough, so the theorems
  state that a result `some _` is produced.
* `Math.floor(limit / 2)` is `Int.fdiv limit 2`; the comparison `base <= limit / 2` with the real
  quotient is `base * 2 ≤ limit` (`le_half_iff`); the comparison `i <= Math.sqrt(num)` with the
  square root taken exactly is `0 ≤ num ∧ i * i ≤ num` (`le_sqrt_iff`), `Math.sqrt` of a negative
  number being `NaN`, which compares false with everything.  Floating-point rounding of
  `Math.sqrt` is not modelled.
* The remainder operator `%` of JavaScript truncates towards zero: `Int.tmod`.
* `isPrimeWith` is the body of `isPrime` with the helper as an argument; a result that holds
  for every helper is one returned without calling `_determineIsPrime`.
* `buildPrimesSetSqrt` is not in the source: it is the sieve with `base` bounded by the square
  root of the limit that the specification describes, compared with `buildPrimesSet`.
-/

namespace JsIsPrime

/-! ## The `Set` operations used by the sieve -/

/-- `Set.prototype.add`: the element is appended unless it is already present. -/
def setAdd (s : List Int) (x : Int) : List Int :=
  if x ∈ s then s else s ++ [x]

/-- `Set.prototype.delete`: the element is removed if present. -/
def setDelete (s : List Int) (x : Int) : List Int :=
  s.filter (fun y => y != x)

/-! ## `src/build-primes.js` -/

/-- Lines 10-12 of `build-primes.js`:
`for (let n=1; n<=setLimit; n++) { primeCandidatesSet.add(n*2 + 1) }`,
started at the counter value `n`. -/
def candidatesLoop : Nat → Int → Int → List Int → Option (List Int)
  | 0, _, _, _ => none
  | fuel + 1, setLimit, n, s =>
    if n ≤ setLimit then candidatesLoop fuel setLimit (n + 1) (setAdd s (n * 2 + 1))
    else some s

/-- Lines 6-12 of `build-primes.js`: the candidate set before any elimination. -/
def initialCandidates (limit : Int) : Option (List Int) :=
  let primeCandidatesSet := setAdd [] 2
  let setLimit := Int.fdiv limit 2 - 1
  candidatesLoop (limit.toNat + 1) setLimit 1 primeCandidatesSet

/-- Lines 19-24 of `build-primes.js`:
`while (multiple <= limit) { primeCandidatesSet.delete(multiple); multiple += base; }`. -/
def multiplesLoop : Nat → Int → Int → Int → List Int → Option (List Int)
  | 0, _, _, _, _ => none
  | fuel + 1, limit, base, multiple, s =>
    if multiple ≤ limit then multiplesLoop fuel limit base (multiple + base) (setDelete s multiple)
    else some s

/-- Lines 16-25 of `build-primes.js`:
`for (let base=2; base <= limDiv; base ++) { let multiple = base*2; while ... }`
with `limDiv = limit / 2`, started at the counter value `base`. -/
def baseLoop : Nat → Int → Int → List Int → Option (List Int)
  | 0, _, _, _ => none
  | fuel + 1, limit, base, s =>
    if base * 2 ≤ limit then
      match multiplesLoop (limit.toNat + 1) limit base (base * 2) s with
      | none => none
      | some s' => baseLoop fuel limit (base + 1) s'
    else some s

/-- The function `buildPrimesSet(limit)` of `build-primes.js`. -/
def buildPrimesSet (limit : Int) : Option (List Int) :=
  match initialCandidates limit with
  | none => none
  | some primeCandidatesSet => baseLoop (limit.toNat + 1) limit 2 primeCandidatesSet

/-! ## `src/is-prime.js` -/

/-- Lines 41-45 of `is-prime.js`:
`for (let i=3; i<=limit; i+=2) { if (num % i === 0) { return false; } }` followed by
`return true`, with `limit = Math.sqrt(num)` taken exactly, started at the counter value `i`. -/
def trialLoop : Nat → Int → Int → Option Bool
  | 0, _, _ => none
  | fuel + 1, num, i =>
    if 0 ≤ num ∧ i * i ≤ num then
      if Int.tmod num i = 0 then some false
      else trialLoop fuel num (i + 2)
    else some true

/-- The helper `_determineIsPrime(num)` of `is-prime.js`. -/
def _determineIsPrime (num : Int) : Option Bool :=
  trialLoop (num.toNat + 1) num 3

/-- The function `isPrime(num)` of `is-prime.js`. -/
def isPrime (num : Int) : Option Bool :=
  if num = 1 then some false
  else if num = 2 ∨ num = 3 then some true
  else if Int.tmod num 2 = 0 then some false
  else
    let sixMod := Int.tmod num 6
    if sixMod ≠ 1 ∧ sixMod ≠ 5 then some false
    else _determineIsPrime num

/-- The body of `isPrime(num)` (lines 7-29 of `is-prime.js`) with the call of line 28 left
open: `helper` stands for `_determineIsPrime`.  A result that does not depend on `helper` is
one that is returned before line 28 is reached. -/
def isPrimeWith (helper : Int → Option Bool) (num : Int) : Option Bool :=
  if num = 1 then some false
  else if num = 2 ∨ num = 3 then some true
  else if Int.tmod num 2 = 0 then some false
  else
    let sixMod := Int.tmod num 6
    if sixMod ≠ 1 ∧ sixMod ≠ 5 then some false
    else helper num

/-! ## The sieve bounded by the square root, as the specification describes it -/

/-- The elimination loop of the specification's optimised sieve: the loop of lines 16-25 of
`build-primes.js` with the test `base <= limDiv` replaced by `base*base <= limit`, that is
`base <= sqrt(limit)`; the inner loop is the one of the source. -/
def baseLoopSqrt : Nat → Int → Int → List Int → Option (List Int)
  | 0, _, _, _ => none
  | fuel + 1, limit, base, s =>
    if base * base ≤ limit then
      match multiplesLoop (limit.toNat + 1) limit base (base * 2) s with
      | none => none
      | some s' => baseLoopSqrt fuel limit (base + 1) s'
    else some s

/-- The specification's optimised sieve: `buildPrimesSet` with `base` bounded by
`sqrt(limit)`. -/
def buildPrimesSetSqrt (limit : Int) : Option (List Int) :=
  match initialCandidates limit with
  | none => none
  | some primeCandidatesSet => baseLoopSqrt (limit.toNat + 1) limit 2 primeCandidatesSet

/-! ## The modelling conventions, justified -/

/-- `Math.floor(limit / 2)` is the floor of the rational quotient. -/
theorem fdiv_two_eq_floor (limit : Int) : Int.fdiv limit 2 = ⌊(limit : ℚ) / 2⌋ := by
  rw [Int.fdiv_eq_ediv limit (by decide : (0 : Int) ≤ 2)]
  symm
  rw [Int.floor_eq_iff]
  have h1 : (limit : ℚ) = ((limit / 2 : Int) : ℚ) * 2 + ((limit % 2 : Int) : ℚ) := by
    have := Int.ediv_add_emod limit 2
    have h2 : ((2 * (limit / 2) + limit % 2 : Int) : ℚ) = (limit : ℚ) := by rw [this]
    push_cast at h2
    linarith
  have h3 : (0 : ℚ) ≤ ((limit % 2 : Int) : ℚ) := by
    exact_mod_cast Int.emod_nonneg limit (by decide)
  have h4 : ((limit % 2 : Int) : ℚ) < 2 := by
    exact_mod_cast Int.emod_lt_of_pos limit (by decide)
  constructor <;> linarith

/-- The loop test `base <= limit / 2` on the real quotient, for integers. -/
theorem le_half_iff (base limit : Int) : (base : ℚ) ≤ (limit : ℚ) / 2 ↔ base * 2 ≤ limit := by
  rw [le_div_iff₀ (by norm_num : (0 : ℚ) < 2)]
  exact_mod_cast Iff.rfl

/-- The loop test `i <= Math.sqrt(num)` with the exact square root, for a positive counter:
it fails for every negative `num`, and is `i*i ≤ num` otherwise. -/
theorem le_sqrt_iff (i num : Int) (hi : 0 < i) :
    (i : ℝ) ≤ Real.sqrt (num : ℝ) ↔ (0 ≤ num ∧ i * i ≤ num) := by
  have hi' : (0 : ℝ) < (i : ℝ) := by exact_mod_cast hi
  rw [Real.le_sqrt' hi', pow_two]
  constructor
  · intro h
    have h2 : i * i ≤ num := by exact_mod_cast h
    exact ⟨by nlinarith, h2⟩
  · intro h
    exact_mod_cast h.2

/-! ## Lemmas on the `Set` operations -/

theorem mem_setAdd (s : List Int) (x y : Int) : y ∈ setAdd s x ↔ y ∈ s ∨ y = x := by
  unfold setAdd
  split
  · constructor
    · intro h
      exact Or.inl h
    · rintro (h | h)
      · exact h
      · subst h
        assumption
  · simp

theorem mem_setDelete (s : List Int) (x y : Int) : y ∈ setDelete s x ↔ y ∈ s ∧ y ≠ x := by
  simp [setDelete]

/-! ## The loops of the sieve -/

/-- The initialisation loop returns, and adds exactly the values `m*2+1` for the counter
values `m` from `n` to `setLimit`. -/
theorem candidatesLoop_spec (fuel : Nat) (setLimit : Int) :
    ∀ (n : Int) (s : List Int), (setLimit + 1 - n).toNat < fuel →
      ∃ s', candidatesLoop fuel setLimit n s = some s' ∧
        ∀ x, x ∈ s' ↔ x ∈ s ∨ ∃ m : Int, n ≤ m ∧ m ≤ setLimit ∧ x = m * 2 + 1 := by
  induction fuel with
  | zero => intro n s h; omega
  | succ fuel ih =>
    intro n s h
    unfold candidatesLoop
    by_cases hn : n ≤ setLimit
    · rw [if_pos hn]
      obtain ⟨s', hs', hmem⟩ := ih (n + 1) (setAdd s (n * 2 + 1)) (by omega)
      refine ⟨s', hs', fun x => ?_⟩
      rw [hmem, mem_setAdd]
      constructor
      · rintro ((h1 | h1) | ⟨m, h1, h2, h3⟩)
        · exact Or.inl h1
        · exact Or.inr ⟨n, le_refl n, hn, h1⟩
        · exact Or.inr ⟨m, by omega, h2, h3⟩
      · rintro (h1 | ⟨m, h1, h2, h3⟩)
        · exact Or.inl (Or.inl h1)
        · by_cases hm : m = n
          · subst hm
            exact Or.inl (Or.inr h3)
          · exact Or.inr ⟨m, by omega, h2, h3⟩
    · rw [if_neg hn]
      refine ⟨s, rfl, fun x => ?_⟩
      constructor
      · intro h1
        exact Or.inl h1
      · rintro (h1 | ⟨m, h1, h2, _⟩)
        · exact h1
        · omega

/-- The candidate set before elimination: it is produced, and holds 2 and the values `m*2+1`
for `1 ≤ m ≤ floor(limit/2) - 1`. -/
theorem initialCandidates_spec (limit : Int) :
    ∃ s, initialCandidates limit = some s ∧
      ∀ x, x ∈ s ↔ x = 2 ∨ ∃ m : Int, 1 ≤ m ∧ m ≤ limit / 2 - 1 ∧ x = m * 2 + 1 := by
  unfold initialCandidates
  simp only [Int.fdiv_eq_ediv limit (by decide : (0 : Int) ≤ 2)]
  obtain ⟨s', hs', hmem⟩ :=
    candidatesLoop_spec (limit.toNat + 1) (limit / 2 - 1) 1 (setAdd [] 2) (by omega)
  refine ⟨s', hs', fun x => ?_⟩
  rw [hmem, mem_setAdd]
  simp

/-- The inner loop returns when `base` is positive, and deletes exactly the values
`multiple + j*base` that do not exceed `limit`. -/
theorem multiplesLoop_spec (fuel : Nat) (limit base : Int) (hb : 0 < base) :
    ∀ (multiple : Int) (s : List Int), (limit + 1 - multiple).toNat < fuel →
      ∃ s', multiplesLoop fuel limit base multiple s = some s' ∧
        ∀ x, x ∈ s' ↔ x ∈ s ∧ ¬ ∃ j : Nat, x = multiple + j * base ∧ x ≤ limit := by
  induction fuel with
  | zero => intro multiple s h; omega
  | succ fuel ih =>
    intro multiple s h
    unfold multiplesLoop
    by_cases hm : multiple ≤ limit
    · rw [if_pos hm]
      obtain ⟨s', hs', hmem⟩ := ih (multiple + base) (setDelete s multiple) (by omega)
      refine ⟨s', hs', fun x => ?_⟩
      rw [hmem, mem_setDelete]
      constructor
      · rintro ⟨⟨h1, h2⟩, h3⟩
        refine ⟨h1, ?_⟩
        rintro ⟨j, hj, hle⟩
        cases j with
        | zero => simp at hj; exact h2 hj
        | succ j =>
          apply h3
          refine ⟨j, ?_, hle⟩
          rw [hj]
          push_cast
          ring
      · rintro ⟨h1, h2⟩
        refine ⟨⟨h1, ?_⟩, ?_⟩
        · intro hx
          apply h2
          exact ⟨0, by simp [hx], by omega⟩
        · rintro ⟨j, hj, hle⟩
          apply h2
          refine ⟨j + 1, ?_, hle⟩
          rw [hj]
          push_cast
          ring
    · rw [if_neg hm]
      refine ⟨s, rfl, fun x => ?_⟩
      constructor
      · intro h1
        refine ⟨h1, ?_⟩
        rintro ⟨j, hj, hle⟩
        have : (0 : Int) ≤ j * base := by positivity
        omega
      · intro h1
        exact h1.1

/-- The elimination loop returns when started at a positive `base`, and deletes exactly the
products `b*k ≤ limit` with `base ≤ b ≤ limit/2` and `2 ≤ k`. -/
theorem baseLoop_spec (fuel : Nat) (limit : Int) :
    ∀ (base : Int) (s : List Int), 0 < base → (limit + 1 - base).toNat < fuel →
      ∃ s', baseLoop fuel limit base s = some s' ∧
        ∀ x, x ∈ s' ↔ x ∈ s ∧
          ¬ ∃ b k : Int, base ≤ b ∧ b * 2 ≤ limit ∧ 2 ≤ k ∧ x = b * k ∧ x ≤ limit := by
  induction fuel with
  | zero => intro base s _ h; omega
  | succ fuel ih =>
    intro base s hb h
    unfold baseLoop
    by_cases hc : base * 2 ≤ limit
    · rw [if_pos hc]
      obtain ⟨s1, hs1, hmem1⟩ :=
        multiplesLoop_spec (limit.toNat + 1) limit base hb (base * 2) s (by omega)
      obtain ⟨s2, hs2, hmem2⟩ := ih (base + 1) s1 (by omega) (by omega)
      rw [hs1]
      refine ⟨s2, hs2, fun x => ?_⟩
      rw [hmem2, hmem1]
      constructor
      · rintro ⟨⟨h1, h2⟩, h3⟩
        refine ⟨h1, ?_⟩
        rintro ⟨b, k, hb1, hb2, hk, hx, hle⟩
        by_cases hbb : b = base
        · subst hbb
          apply h2
          refine ⟨(k - 2).toNat, ?_, hle⟩
          rw [hx, Int.toNat_of_nonneg (by omega)]
          ring
        · exact h3 ⟨b, k, by omega, hb2, hk, hx, hle⟩
      · rintro ⟨h1, h2⟩
        refine ⟨⟨h1, ?_⟩, ?_⟩
        · rintro ⟨j, hj, hle⟩
          apply h2
          refine ⟨base, 2 + (j : Int), le_refl _, hc, by omega, ?_, hle⟩
          rw [hj]
          ring
        · rintro ⟨b, k, hb1, hb2, hk, hx, hle⟩
          exact h2 ⟨b, k, by omega, hb2, hk, hx, hle⟩
    · rw [if_neg hc]
      refine ⟨s, rfl, fun x => ?_⟩
      constructor
      · intro h1
        refine ⟨h1, ?_⟩
        rintro ⟨b, k, hb1, hb2, _⟩
        omega
      · intro h1
        exact h1.1

/-- What `buildPrimesSet` returns, for every integer `limit`: the initial candidates that are
not a product `b*k ≤ limit` with `2 ≤ b ≤ limit/2` and `2 ≤ k`. -/
theorem buildPrimesSet_spec (limit : Int) :
    ∃ s, buildPrimesSet limit = some s ∧
      ∀ x, x ∈ s ↔ (x = 2 ∨ ∃ m : Int, 1 ≤ m ∧ m ≤ limit / 2 - 1 ∧ x = m * 2 + 1) ∧
        ¬ ∃ b k : Int, 2 ≤ b ∧ b * 2 ≤ limit ∧ 2 ≤ k ∧ x = b * k ∧ x ≤ limit := by
  obtain ⟨s0, hs0, hmem0⟩ := initialCandidates_spec limit
  obtain ⟨s1, hs1, hmem1⟩ :=
    baseLoop_spec (limit.toNat + 1) limit 2 s0 (by decide) (by omega)
  refine ⟨s1, ?_, fun x => ?_⟩
  · unfold buildPrimesSet
    rw [hs0]
    exact hs1
  · rw [hmem1, hmem0]

/-! ## Primality -/

/-- An integer `x ≥ 2` is prime exactly when it is not a product of two integers `≥ 2`. -/
theorem prime_iff_no_factorisation (x : Int) (hx : 2 ≤ x) :
    Nat.Prime x.toNat ↔ ¬ ∃ b k : Int, 2 ≤ b ∧ 2 ≤ k ∧ x = b * k := by
  constructor
  · rintro hp ⟨b, k, hb, hk, hxe⟩
    have hnat : x.toNat = b.toNat * k.toNat := by
      zify
      rw [Int.toNat_of_nonneg (by omega), Int.toNat_of_nonneg (by omega),
        Int.toNat_of_nonneg (by omega), hxe]
    rw [hnat] at hp
    exact Nat.not_prime_mul (by omega) (by omega) hp
  · intro h
    by_contra hnp
    obtain ⟨m, hm, hm2, hmlt⟩ := Nat.exists_dvd_of_not_prime2 (by omega : 2 ≤ x.toNat) hnp
    obtain ⟨c, hc⟩ := hm
    apply h
    refine ⟨(m : Int), (c : Int), by omega, ?_, ?_⟩
    · have hc2 : 2 ≤ c := by
        by_contra hlt
        have hc01 : c = 0 ∨ c = 1 := by omega
        rcases hc01 with rfl | rfl
        · omega
        · omega
      omega
    · have : (x.toNat : Int) = (m : Int) * (c : Int) := by exact_mod_cast hc
      rw [← this, Int.toNat_of_nonneg (by omega)]

/-- For `limit ≥ 2`, `buildPrimesSet` returns exactly the primes up to `2 * floor(limit/2)`. -/
theorem buildPrimesSet_primes (limit : Int) (h : 2 ≤ limit) :
    ∃ s, buildPrimesSet limit = some s ∧
      ∀ x, x ∈ s ↔ Nat.Prime x.toNat ∧ x ≤ 2 * (limit / 2) := by
  obtain ⟨s, hs, hmem⟩ := buildPrimesSet_spec limit
  refine ⟨s, hs, fun x => ?_⟩
  rw [hmem]
  constructor
  · rintro ⟨hcand, hstruck⟩
    have hx2 : 2 ≤ x ∧ x ≤ 2 * (limit / 2) := by
      rcases hcand with rfl | ⟨m, h1, h2, rfl⟩
      · omega
      · omega
    refine ⟨?_, hx2.2⟩
    rw [prime_iff_no_factorisation x hx2.1]
    rintro ⟨b, k, hb, hk, hxe⟩
    apply hstruck
    refine ⟨b, k, hb, ?_, hk, hxe, by omega⟩
    have : b * 2 ≤ b * k := by nlinarith
    omega
  · rintro ⟨hp, hle⟩
    have hx2 : 2 ≤ x := by
      have := hp.two_le
      omega
    have hnf := (prime_iff_no_factorisation x hx2).1 hp
    refine ⟨?_, ?_⟩
    · by_cases h2 : x = 2
      · exact Or.inl h2
      · right
        have hodd : x % 2 = 1 := by
          by_contra hev
          apply hnf
          exact ⟨2, x / 2, le_refl _, by omega, by omega⟩
        exact ⟨x / 2, by omega, by omega, by omega⟩
    · rintro ⟨b, k, hb, _, hk, hxe, _⟩
      exact hnf ⟨b, k, hb, hk, hxe⟩

/-! ## The trial-division loop -/

/-- The trial-division loop returns when started at a positive counter, and answers `false`
exactly when one of the counter values `i, i+2, i+4, ...` whose square does not exceed `num`
divides `num`. -/
theorem trialLoop_spec (fuel : Nat) (num : Int) :
    ∀ i : Int, 0 < i → (num + 1 - i).toNat < fuel →
      ∃ b, trialLoop fuel num i = some b ∧
        (b = false ↔ ∃ d : Int, i ≤ d ∧ (d - i) % 2 = 0 ∧ d * d ≤ num ∧ d ∣ num) := by
  induction fuel with
  | zero => intro i _ h; omega
  | succ fuel ih =>
    intro i hi h
    unfold trialLoop
    by_cases hc : 0 ≤ num ∧ i * i ≤ num
    · rw [if_pos hc]
      by_cases hd : Int.tmod num i = 0
      · rw [if_pos hd]
        refine ⟨false, rfl, ?_⟩
        simp only [true_iff]
        exact ⟨i, le_refl _, by simp, hc.2, Int.dvd_of_tmod_eq_zero hd⟩
      · rw [if_neg hd]
        have hile : i ≤ num := by nlinarith [hc.2]
        obtain ⟨b, hb, hiff⟩ := ih (i + 2) (by omega) (by omega)
        refine ⟨b, hb, ?_⟩
        rw [hiff]
        constructor
        · rintro ⟨d, h1, h2, h3, h4⟩
          exact ⟨d, by omega, by omega, h3, h4⟩
        · rintro ⟨d, h1, h2, h3, h4⟩
          have hne : d ≠ i := by
            rintro rfl
            exact hd (Int.tmod_eq_zero_of_dvd h4)
          exact ⟨d, by omega, by omega, h3, h4⟩
    · rw [if_neg hc]
      refine ⟨true, rfl, ?_⟩
      simp only [Bool.true_eq_false, false_iff]
      rintro ⟨d, h1, _, h3, _⟩
      apply hc
      constructor
      · nlinarith
      · nlinarith

/-- The helper `_determineIsPrime` returns for every integer, and answers `false` exactly when
an odd `d ≥ 3` with `d*d ≤ num` divides `num`. -/
theorem determineIsPrime_spec (num : Int) :
    ∃ b, _determineIsPrime num = some b ∧
      (b = false ↔ ∃ d : Int, 3 ≤ d ∧ d % 2 = 1 ∧ d * d ≤ num ∧ d ∣ num) := by
  obtain ⟨b, hb, hiff⟩ := trialLoop_spec (num.toNat + 1) num 3 (by decide) (by omega)
  refine ⟨b, hb, ?_⟩
  rw [hiff]
  constructor
  · rintro ⟨d, h1, h2, h3, h4⟩
    exact ⟨d, h1, by omega, h3, h4⟩
  · rintro ⟨d, h1, h2, h3, h4⟩
    exact ⟨d, h1, by omega, h3, h4⟩

/-- An odd natural number `n ≥ 3` is prime exactly when no odd `d ≥ 3` with `d*d ≤ n`
divides it. -/
theorem odd_prime_iff_no_small_odd_divisor (n : Nat) (h3 : 3 ≤ n) (hodd : n % 2 = 1) :
    n.Prime ↔ ¬ ∃ d : Int, 3 ≤ d ∧ d % 2 = 1 ∧ d * d ≤ (n : Int) ∧ d ∣ (n : Int) := by
  constructor
  · rintro hp ⟨d, hd3, _, hsq, hdvd⟩
    have hdn : d.toNat ∣ n := by
      rw [← Int.natCast_dvd_natCast, Int.toNat_of_nonneg (by omega)]
      exact hdvd
    rcases (Nat.dvd_prime hp).1 hdn with h1 | h1
    · omega
    · have hdeq : d = (n : Int) := by
        rw [← h1, Int.toNat_of_nonneg (by omega)]
      rw [hdeq] at hsq
      nlinarith
  · intro h
    by_contra hnp
    apply h
    have hp : (Nat.minFac n).Prime := Nat.minFac_prime (by omega)
    have hdvd : Nat.minFac n ∣ n := Nat.minFac_dvd n
    have hsq : Nat.minFac n ^ 2 ≤ n := Nat.minFac_sq_le_self (by omega) hnp
    have hne2 : Nat.minFac n ≠ 2 := by
      intro h2
      rw [h2] at hdvd
      omega
    have hoddp : Nat.minFac n % 2 = 1 := by
      rcases hp.eq_two_or_odd with h2 | h2
      · exact absurd h2 hne2
      · exact h2
    have hp2 := hp.two_le
    refine ⟨(Nat.minFac n : Int), by omega, by omega, ?_, ?_⟩
    · rw [← pow_two]
      exact_mod_cast hsq
    · exact_mod_cast hdvd

/-- For every positive integer, `isPrime` returns, and answers `true` exactly on the primes. -/
theorem isPrime_spec (n : Nat) (hn : 0 < n) :
    ∃ b, isPrime (n : Int) = some b ∧ (b = true ↔ n.Prime) := by
  unfold isPrime
  by_cases h1 : (n : Int) = 1
  · rw [if_pos h1]
    have : n = 1 := by exact_mod_cast h1
    subst this
    exact ⟨false, rfl, by simp [Nat.not_prime_one]⟩
  rw [if_neg h1]
  by_cases h23 : (n : Int) = 2 ∨ (n : Int) = 3
  · rw [if_pos h23]
    refine ⟨true, rfl, ?_⟩
    simp only [true_iff]
    rcases h23 with h | h
    · have : n = 2 := by exact_mod_cast h
      subst this
      exact Nat.prime_two
    · have : n = 3 := by exact_mod_cast h
      subst this
      exact Nat.prime_three
  rw [if_neg h23]
  have hmod2 : Int.tmod (n : Int) 2 = (n : Int) % 2 :=
    Int.tmod_eq_emod (by omega) (by decide)
  have hmod6 : Int.tmod (n : Int) 6 = (n : Int) % 6 :=
    Int.tmod_eq_emod (by omega) (by decide)
  rw [hmod2]
  simp only [hmod6]
  by_cases hev : (n : Int) % 2 = 0
  · rw [if_pos hev]
    refine ⟨false, rfl, ?_⟩
    simp only [Bool.false_eq_true, false_iff]
    intro hp
    rcases (Nat.dvd_prime hp).1 (show 2 ∣ n by omega) with h | h
    · omega
    · omega
  rw [if_neg hev]
  by_cases hsix : (n : Int) % 6 ≠ 1 ∧ (n : Int) % 6 ≠ 5
  · rw [if_pos hsix]
    refine ⟨false, rfl, ?_⟩
    simp only [Bool.false_eq_true, false_iff]
    intro hp
    rcases (Nat.dvd_prime hp).1 (show 3 ∣ n by omega) with h | h
    · omega
    · omega
  rw [if_neg hsix]
  obtain ⟨b, hb, hiff⟩ := determineIsPrime_spec (n : Int)
  refine ⟨b, hb, ?_⟩
  rw [odd_prime_iff_no_small_odd_divisor n (by omega) (by omega), ← hiff]
  cases b <;> simp

/-! ## The elimination only filters -/

/-- Whatever the inner loop returns is the set it was given, filtered. -/
theorem multiplesLoop_filter (fuel : Nat) (limit base : Int) :
    ∀ (multiple : Int) (s s' : List Int), multiplesLoop fuel limit base multiple s = some s' →
      ∃ q : Int → Bool, s' = s.filter q := by
  induction fuel with
  | zero =>
    intro multiple s s' h
    simp [multiplesLoop] at h
  | succ fuel ih =>
    intro multiple s s' h
    unfold multiplesLoop at h
    by_cases hm : multiple ≤ limit
    · rw [if_pos hm] at h
      obtain ⟨q, hq⟩ := ih (multiple + base) (setDelete s multiple) s' h
      refine ⟨fun a => q a && (a != multiple), ?_⟩
      rw [hq, setDelete, List.filter_filter]
    · rw [if_neg hm] at h
      refine ⟨fun _ => true, ?_⟩
      rw [← Option.some.inj h]
      simp

/-- Whatever the elimination loop of the source returns is the set it was given, filtered. -/
theorem baseLoop_filter (fuel : Nat) (limit : Int) :
    ∀ (base : Int) (s s' : List Int), baseLoop fuel limit base s = some s' →
      ∃ q : Int → Bool, s' = s.filter q := by
  induction fuel with
  | zero =>
    intro base s s' h
    simp [baseLoop] at h
  | succ fuel ih =>
    intro base s s' h
    unfold baseLoop at h
    by_cases hc : base * 2 ≤ limit
    · rw [if_pos hc] at h
      cases hm : multiplesLoop (limit.toNat + 1) limit base (base * 2) s with
      | none => rw [hm] at h; simp at h
      | some s1 =>
        rw [hm] at h
        obtain ⟨q1, hq1⟩ := multiplesLoop_filter _ _ _ _ _ _ hm
        obtain ⟨q2, hq2⟩ := ih (base + 1) s1 s' h
        refine ⟨fun a => q2 a && q1 a, ?_⟩
        rw [hq2, hq1, List.filter_filter]
    · rw [if_neg hc] at h
      refine ⟨fun _ => true, ?_⟩
      rw [← Option.some.inj h]
      simp

/-- Whatever the square-root-bounded elimination loop returns is the set it was given,
filtered. -/
theorem baseLoopSqrt_filter (fuel : Nat) (limit : Int) :
    ∀ (base : Int) (s s' : List Int), baseLoopSqrt fuel limit base s = some s' →
      ∃ q : Int → Bool, s' = s.filter q := by
  induction fuel with
  | zero =>
    intro base s s' h
    simp [baseLoopSqrt] at h
  | succ fuel ih =>
    intro base s s' h
    unfold baseLoopSqrt at h
    by_cases hc : base * base ≤ limit
    · rw [if_pos hc] at h
      cases hm : multiplesLoop (limit.toNat + 1) limit base (base * 2) s with
      | none => rw [hm] at h; simp at h
      | some s1 =>
        rw [hm] at h
        obtain ⟨q1, hq1⟩ := multiplesLoop_filter _ _ _ _ _ _ hm
        obtain ⟨q2, hq2⟩ := ih (base + 1) s1 s' h
        refine ⟨fun a => q2 a && q1 a, ?_⟩
        rw [hq2, hq1, List.filter_filter]
    · rw [if_neg hc] at h
      refine ⟨fun _ => true, ?_⟩
      rw [← Option.some.inj h]
      simp

/-- Two filterings of one list with the same elements are the same list. -/
theorem filter_eq_of_mem_iff (s : List Int) (q1 q2 : Int → Bool)
    (h : ∀ x, x ∈ s.filter q1 ↔ x ∈ s.filter q2) : s.filter q1 = s.filter q2 := by
  apply List.filter_congr
  intro x hx
  have hx' := h x
  rw [List.mem_filter, List.mem_filter] at hx'
  rw [Bool.eq_iff_iff]
  constructor
  · intro h1
    exact (hx'.1 ⟨hx, h1⟩).2
  · intro h2
    exact (hx'.2 ⟨hx, h2⟩).2

/-! ## The sieve bounded by the square root -/

/-- The square-root-bounded elimination loop returns when started at a positive `base`, and
deletes exactly the products `b*k ≤ limit` with `base ≤ b`, `b*b ≤ limit` and `2 ≤ k`. -/
theorem baseLoopSqrt_spec (fuel : Nat) (limit : Int) :
    ∀ (base : Int) (s : List Int), 0 < base → (limit + 1 - base).toNat < fuel →
      ∃ s', baseLoopSqrt fuel limit base s = some s' ∧
        ∀ x, x ∈ s' ↔ x ∈ s ∧
          ¬ ∃ b k : Int, base ≤ b ∧ b * b ≤ limit ∧ 2 ≤ k ∧ x = b * k ∧ x ≤ limit := by
  induction fuel with
  | zero => intro base s _ h; omega
  | succ fuel ih =>
    intro base s hb h
    unfold baseLoopSqrt
    by_cases hc : base * base ≤ limit
    · rw [if_pos hc]
      have hbl : base ≤ limit := by nlinarith
      obtain ⟨s1, hs1, hmem1⟩ :=
        multiplesLoop_spec (limit.toNat + 1) limit base hb (base * 2) s (by omega)
      obtain ⟨s2, hs2, hmem2⟩ := ih (base + 1) s1 (by omega) (by omega)
      rw [hs1]
      refine ⟨s2, hs2, fun x => ?_⟩
      rw [hmem2, hmem1]
      constructor
      · rintro ⟨⟨h1, h2⟩, h3⟩
        refine ⟨h1, ?_⟩
        rintro ⟨b, k, hb1, hb2, hk, hx, hle⟩
        by_cases hbb : b = base
        · subst hbb
          apply h2
          refine ⟨(k - 2).toNat, ?_, hle⟩
          rw [hx, Int.toNat_of_nonneg (by omega)]
          ring
        · exact h3 ⟨b, k, by omega, hb2, hk, hx, hle⟩
      · rintro ⟨h1, h2⟩
        refine ⟨⟨h1, ?_⟩, ?_⟩
        · rintro ⟨j, hj, hle⟩
          apply h2
          refine ⟨base, 2 + (j : Int), le_refl _, hc, by omega, ?_, hle⟩
          rw [hj]
          ring
        · rintro ⟨b, k, hb1, hb2, hk, hx, hle⟩
          exact h2 ⟨b, k, by omega, hb2, hk, hx, hle⟩
    · rw [if_neg hc]
      refine ⟨s, rfl, fun x => ?_⟩
      constructor
      · intro h1
        refine ⟨h1, ?_⟩
        rintro ⟨b, k, hb1, hb2, _⟩
        apply hc
        nlinarith
      · intro h1
        exact h1.1

/-- A product `b*k ≤ limit` of two integers `≥ 2` has a factor `b ≤ limit/2` exactly when it has
a factor `b` with `b*b ≤ limit`. -/
theorem struck_iff_struck_sqrt (limit x : Int) :
    (∃ b k : Int, 2 ≤ b ∧ b * 2 ≤ limit ∧ 2 ≤ k ∧ x = b * k ∧ x ≤ limit) ↔
    (∃ b k : Int, 2 ≤ b ∧ b * b ≤ limit ∧ 2 ≤ k ∧ x = b * k ∧ x ≤ limit) := by
  constructor
  · rintro ⟨b, k, hb, _, hk, hx, hle⟩
    by_cases hbk : b ≤ k
    · refine ⟨b, k, hb, ?_, hk, hx, hle⟩
      have : b * b ≤ b * k := by nlinarith
      omega
    · refine ⟨k, b, hk, ?_, hb, by rw [hx]; ring, hle⟩
      have : k * k ≤ b * k := by nlinarith
      omega
  · rintro ⟨b, k, hb, hbb, hk, hx, hle⟩
    refine ⟨b, k, hb, ?_, hk, hx, hle⟩
    have : b * 2 ≤ b * b := by nlinarith
    omega

/-- The square-root-bounded sieve returns the very list that `buildPrimesSet` returns, for
every integer `limit`. -/
theorem buildPrimesSetSqrt_eq_buildPrimesSet (limit : Int) :
    buildPrimesSetSqrt limit = buildPrimesSet limit := by
  obtain ⟨s0, hs0, _⟩ := initialCandidates_spec limit
  obtain ⟨s1, hs1, hmem1⟩ :=
    baseLoop_spec (limit.toNat + 1) limit 2 s0 (by decide) (by omega)
  obtain ⟨s2, hs2, hmem2⟩ :=
    baseLoopSqrt_spec (limit.toNat + 1) limit 2 s0 (by decide) (by omega)
  obtain ⟨q1, hq1⟩ := baseLoop_filter _ _ _ _ _ hs1
  obtain ⟨q2, hq2⟩ := baseLoopSqrt_filter _ _ _ _ _ hs2
  unfold buildPrimesSetSqrt buildPrimesSet
  rw [hs0]
  simp only []
  rw [hs1, hs2, hq1, hq2]
  congr 1
  apply filter_eq_of_mem_iff
  intro x
  rw [← hq1, ← hq2, hmem1, hmem2, struck_iff_struck_sqrt]

/-! ## The fast paths of `isPrime` -/

/-- The function `isPrime` is its body with `_determineIsPrime` as the helper. -/
theorem isPrime_eq_isPrimeWith (num : Int) : isPrime num = isPrimeWith _determineIsPrime num :=
  rfl

/-- The truncating remainder of a non-positive number is the negated remainder of its
absolute value: it takes the sign of the dividend. -/
theorem tmod_of_nonpos (num k : Int) (h : num ≤ 0) (hk : 0 < k) :
    Int.tmod num k = -((-num) % k) := by
  obtain ⟨m, rfl⟩ : ∃ m, num = -m := ⟨-num, by ring⟩
  rw [Int.tmod_def, Int.neg_tdiv, Int.tdiv_eq_ediv (by omega) (by omega), neg_neg,
    Int.emod_def]
  ring

/-- A number other than 1, 2 and 3 that is even, or whose remainder by 6 is neither 1 nor 5,
is answered `false` before the helper is reached, whatever the helper is. -/
theorem isPrimeWith_reject (helper : Int → Option Bool) (num : Int)
    (h1 : num ≠ 1) (h2 : num ≠ 2) (h3 : num ≠ 3)
    (h6 : Int.tmod num 2 = 0 ∨ (Int.tmod num 6 ≠ 1 ∧ Int.tmod num 6 ≠ 5)) :
    isPrimeWith helper num = some false := by
  unfold isPrimeWith
  rw [if_neg h1, if_neg (by omega)]
  by_cases hev : Int.tmod num 2 = 0
  · rw [if_pos hev]
  · rw [if_neg hev]
    rcases h6 with h | h
    · exact absurd h hev
    · simp only []
      rw [if_pos h]

/-- The number 2 is in the result of `buildPrimesSet` for every integer `limit`. -/
theorem two_mem_buildPrimesSet (limit : Int) :
    ∃ s, buildPrimesSet limit = some s ∧ (2 : Int) ∈ s := by
  obtain ⟨s, hs, hmem⟩ := buildPrimesSet_spec limit
  refine ⟨s, hs, (hmem 2).2 ⟨Or.inl rfl, ?_⟩⟩
  rintro ⟨b, k, hb, _, hk, hx, _⟩
  nlinarith

/-! ## The claims -/

/-- C1, evaluated where the code departs from it: `buildPrimesSet(3)` returns `{2}` and
`buildPrimesSet(11)` returns `{2, 3, 5, 7}`, so the primes 3 and 11, which satisfy
`2 ≤ p ≤ limit`, are missing from the result. -/
theorem buildPrimesSet_misses_odd_prime_limit :
    (Nat.Prime (3 : Int).toNat ∧ ∃ s, buildPrimesSet 3 = some s ∧ s = [2] ∧ (3 : Int) ∉ s) ∧
    (Nat.Prime (11 : Int).toNat ∧
      ∃ s, buildPrimesSet 11 = some s ∧ s = [2, 3, 5, 7] ∧ (11 : Int) ∉ s) := by
  refine ⟨⟨?_, [2], by decide, rfl, by decide⟩, ⟨?_, [2, 3, 5, 7], by decide, rfl, by decide⟩⟩
  · show Nat.Prime 3
    norm_num
  · show Nat.Prime 11
    norm_num

/-- C2: for every integer `limit ≥ 2`, `buildPrimesSet(limit)` returns a set whose every
element `p` is a prime number with `2 ≤ p ≤ limit`. -/
theorem buildPrimesSet_sound (limit : Int) (h : 2 ≤ limit) :
    ∃ s, buildPrimesSet limit = some s ∧
      ∀ p, p ∈ s → Nat.Prime p.toNat ∧ 2 ≤ p ∧ p ≤ limit := by
  obtain ⟨s, hs, hmem⟩ := buildPrimesSet_primes limit h
  refine ⟨s, hs, fun p hp => ?_⟩
  obtain ⟨hprime, hle⟩ := (hmem p).1 hp
  have := hprime.two_le
  exact ⟨hprime, by omega, by omega⟩

theorem buildPrimesSet_sound_witness :
    (2 : Int) ≤ 10 ∧ ∃ s, buildPrimesSet 10 = some s ∧
      ∀ p, p ∈ s → Nat.Prime p.toNat ∧ 2 ≤ p ∧ p ≤ 10 :=
  ⟨by decide, buildPrimesSet_sound 10 (by decide)⟩

/-- C3: for every positive integer `num`, `isPrime(num)` returns, and it returns `true` if and
only if `num` is a prime number (the square root being exact). -/
theorem isPrime_correct (num : Int) (h : 0 < num) :
    ∃ b, isPrime num = some b ∧ (b = true ↔ Nat.Prime num.toNat) := by
  have hcast : ((num.toNat : Nat) : Int) = num := Int.toNat_of_nonneg (by omega)
  have := isPrime_spec num.toNat (by omega)
  rw [hcast] at this
  exact this

theorem isPrime_correct_witness :
    (0 : Int) < 17 ∧ ∃ b, isPrime 17 = some b ∧ (b = true ↔ Nat.Prime (17 : Int).toNat) :=
  ⟨by decide, isPrime_correct 17 (by decide)⟩

/-- C4, evaluated where the code departs from it: with `limit = 3` and `k = 3`,
`isPrime(3)` is `true` but 3 is not an element of `buildPrimesSet(3)`, which is `{2}`. -/
theorem buildPrimesSet_disagrees_with_isPrime :
    (2 : Int) ≤ 3 ∧ isPrime 3 = some true ∧
      ∃ s, buildPrimesSet 3 = some s ∧ (3 : Int) ∉ s := by
  refine ⟨by decide, by decide, [2], by decide, by decide⟩

/-- C5, evaluated where the code departs from it: `buildPrimesSet(1)`, `buildPrimesSet(0)` and
`buildPrimesSet(-4)` all return `{2}`, which holds the value 2 greater than the limit. -/
theorem buildPrimesSet_exceeds_small_limit :
    (∃ s, buildPrimesSet 1 = some s ∧ (2 : Int) ∈ s ∧ (1 : Int) < 2) ∧
    (∃ s, buildPrimesSet 0 = some s ∧ (2 : Int) ∈ s ∧ (0 : Int) < 2) ∧
    (∃ s, buildPrimesSet (-4) = some s ∧ (2 : Int) ∈ s ∧ (-4 : Int) < 2) := by
  refine ⟨⟨[2], by decide, by decide, by decide⟩, ⟨[2], by decide, by decide, by decide⟩,
    ⟨[2], by decide, by decide, by decide⟩⟩

/-- C6: `buildPrimesSet(10)` is the set `{2, 3, 5, 7}` and `buildPrimesSet(30)` is the set
`{2, 3, 5, 7, 11, 13, 17, 19, 23, 29}`. -/
theorem buildPrimesSet_examples :
    buildPrimesSet 10 = some [2, 3, 5, 7] ∧
    buildPrimesSet 30 = some [2, 3, 5, 7, 11, 13, 17, 19, 23, 29] := by
  constructor
  · decide
  · decide

/-- C7: `isPrime` returns `false` for 1, 4, 25, 49 and 961 and `true` for 2, 3 and 17. -/
theorem isPrime_examples :
    isPrime 1 = some false ∧ isPrime 4 = some false ∧ isPrime 25 = some false ∧
    isPrime 49 = some false ∧ isPrime 961 = some false ∧
    isPrime 2 = some true ∧ isPrime 3 = some true ∧ isPrime 17 = some true := by
  refine ⟨?_, ?_, ?_, ?_, ?_, ?_, ?_, ?_⟩ <;> decide

/-- C8: for every integer `limit ≥ 2`, `buildPrimesSet(limit)` returns exactly the primes of
the initial candidate set, which are exactly the primes `p ≤ 2 * floor(limit/2)`; for an even
`limit` these are exactly the primes `p ≤ limit`. -/
theorem buildPrimesSet_exact (limit : Int) (h : 2 ≤ limit) :
    ∃ c s, initialCandidates limit = some c ∧ buildPrimesSet limit = some s ∧
      (∀ x, x ∈ s ↔ x ∈ c ∧ Nat.Prime x.toNat) ∧
      (∀ x, x ∈ s ↔ Nat.Prime x.toNat ∧ x ≤ 2 * Int.fdiv limit 2) ∧
      (limit % 2 = 0 → ∀ x, x ∈ s ↔ Nat.Prime x.toNat ∧ x ≤ limit) := by
  obtain ⟨c, hc, hmemc⟩ := initialCandidates_spec limit
  obtain ⟨s, hs, hmem⟩ := buildPrimesSet_primes limit h
  obtain ⟨s', hs', hmem'⟩ := buildPrimesSet_spec limit
  have hss : s' = s := by
    rw [hs] at hs'
    exact (Option.some.inj hs').symm
  subst hss
  rw [Int.fdiv_eq_ediv limit (by decide : (0 : Int) ≤ 2)]
  refine ⟨c, s', hc, hs, fun x => ?_, hmem, fun hev x => ?_⟩
  · constructor
    · intro hx
      exact ⟨(hmemc x).2 ((hmem' x).1 hx).1, ((hmem x).1 hx).1⟩
    · rintro ⟨hxc, hp⟩
      refine (hmem x).2 ⟨hp, ?_⟩
      rcases (hmemc x).1 hxc with rfl | ⟨m, _, h2, rfl⟩
      · omega
      · omega
  · rw [hmem x]
    have : 2 * (limit / 2) = limit := by omega
    rw [this]

theorem buildPrimesSet_exact_witness :
    (2 : Int) ≤ 10 ∧ ∃ c s, initialCandidates 10 = some c ∧ buildPrimesSet 10 = some s ∧
      (∀ x, x ∈ s ↔ x ∈ c ∧ Nat.Prime x.toNat) ∧
      (∀ x, x ∈ s ↔ Nat.Prime x.toNat ∧ x ≤ 2 * Int.fdiv 10 2) ∧
      ((10 : Int) % 2 = 0 → ∀ x, x ∈ s ↔ Nat.Prime x.toNat ∧ x ≤ 10) :=
  ⟨by decide, buildPrimesSet_exact 10 (by decide)⟩

/-- C9, evaluated where the code departs from it: the candidate set of `buildPrimesSet(3)`
is `{2}` and that of `buildPrimesSet(11)` is `{2, 3, 5, 7, 9}`; the odd limit itself, which
satisfies `3 ≤ k ≤ limit`, is not a candidate. -/
theorem initialCandidates_misses_odd_limit :
    (∃ c, initialCandidates 3 = some c ∧ c = [2] ∧ (3 : Int) % 2 = 1 ∧ (3 : Int) ∉ c) ∧
    (∃ c, initialCandidates 11 = some c ∧ c = [2, 3, 5, 7, 9] ∧ (11 : Int) % 2 = 1 ∧
      (11 : Int) ∉ c) := by
  refine ⟨⟨[2], by decide, rfl, by decide, by decide⟩,
    ⟨[2, 3, 5, 7, 9], by decide, rfl, by decide, by decide⟩⟩

/-- C10: for every integer `limit < 2`, `buildPrimesSet(limit)` returns exactly the set `{2}`,
which holds a value greater than `limit`. -/
theorem buildPrimesSet_below_two (limit : Int) (h : limit < 2) :
    ∃ s, buildPrimesSet limit = some s ∧ s = [2] ∧ ∃ v, v ∈ s ∧ limit < v := by
  have hinit : initialCandidates limit = some [2] := by
    unfold initialCandidates
    simp only [Int.fdiv_eq_ediv limit (by decide : (0 : Int) ≤ 2)]
    unfold candidatesLoop
    rw [if_neg (by omega)]
    rfl
  refine ⟨[2], ?_, rfl, 2, by simp, h⟩
  unfold buildPrimesSet
  rw [hinit]
  simp only []
  unfold baseLoop
  rw [if_neg (by omega)]

theorem buildPrimesSet_below_two_witness :
    (1 : Int) < 2 ∧ ∃ s, buildPrimesSet 1 = some s ∧ s = [2] ∧ ∃ v, v ∈ s ∧ (1 : Int) < v :=
  ⟨by decide, buildPrimesSet_below_two 1 (by decide)⟩

/-- C11, refuted as stated: 4 is a composite positive integer, and `_determineIsPrime(4)`
returns `true`, not `false`; the same holds for 10. -/
theorem determineIsPrime_even_composite :
    ((1 : Int) < 4 ∧ ¬ Nat.Prime (4 : Int).toNat ∧ _determineIsPrime 4 = some true ∧
      _determineIsPrime 4 ≠ some false) ∧
    ((1 : Int) < 10 ∧ ¬ Nat.Prime (10 : Int).toNat ∧ _determineIsPrime 10 = some true ∧
      _determineIsPrime 10 ≠ some false) := by
  refine ⟨⟨by decide, ?_, by decide, by decide⟩, ⟨by decide, ?_, by decide, by decide⟩⟩
  · show ¬ Nat.Prime 4
    norm_num
  · show ¬ Nat.Prime 10
    norm_num

/-- C11, amended: for every odd composite positive integer `n`, `_determineIsPrime(n)` returns
`false`, and there is an odd divisor `i ≥ 3` of `n` with `i*i ≤ n` for the loop to find. -/
theorem determineIsPrime_odd_composite (n : Int) (hodd : n % 2 = 1)
    (hcomp : 1 < n ∧ ¬ Nat.Prime n.toNat) :
    _determineIsPrime n = some false ∧
      ∃ i : Int, 3 ≤ i ∧ i % 2 = 1 ∧ i * i ≤ n ∧ i ∣ n := by
  have hcast : ((n.toNat : Nat) : Int) = n := Int.toNat_of_nonneg (by omega)
  have hdiv : ∃ d : Int, 3 ≤ d ∧ d % 2 = 1 ∧ d * d ≤ n ∧ d ∣ n := by
    by_contra hno
    apply hcomp.2
    rw [odd_prime_iff_no_small_odd_divisor n.toNat (by omega) (by omega), hcast]
    exact hno
  obtain ⟨b, hb, hiff⟩ := determineIsPrime_spec n
  have hbf : b = false := hiff.2 hdiv
  rw [hb, hbf]
  exact ⟨rfl, hdiv⟩

theorem determineIsPrime_odd_composite_witness :
    ((961 : Int) % 2 = 1 ∧ ((1 : Int) < 961 ∧ ¬ Nat.Prime (961 : Int).toNat)) ∧
      (_determineIsPrime 961 = some false ∧
        ∃ i : Int, 3 ≤ i ∧ i % 2 = 1 ∧ i * i ≤ 961 ∧ i ∣ 961) :=
  have hc : (1 : Int) < 961 ∧ ¬ Nat.Prime (961 : Int).toNat :=
    ⟨by decide, by show ¬ Nat.Prime 961; norm_num⟩
  ⟨⟨by decide, hc⟩, determineIsPrime_odd_composite 961 (by decide) hc⟩

/-- C12: for every integer `num` that is odd, greater than 3 and congruent to 1 or 5 modulo 6,
`_determineIsPrime(num)` returns, and it returns `true` if and only if `num` is prime. -/
theorem determineIsPrime_correct (num : Int) (hodd : num % 2 = 1) (h3 : 3 < num)
    (_h6 : num % 6 = 1 ∨ num % 6 = 5) :
    ∃ b, _determineIsPrime num = some b ∧ (b = true ↔ Nat.Prime num.toNat) := by
  have hcast : ((num.toNat : Nat) : Int) = num := Int.toNat_of_nonneg (by omega)
  obtain ⟨b, hb, hiff⟩ := determineIsPrime_spec num
  refine ⟨b, hb, ?_⟩
  rw [odd_prime_iff_no_small_odd_divisor num.toNat (by omega) (by omega), hcast, ← hiff]
  cases b <;> simp

theorem determineIsPrime_correct_witness :
    ((25 : Int) % 2 = 1 ∧ (3 : Int) < 25 ∧ ((25 : Int) % 6 = 1 ∨ (25 : Int) % 6 = 5)) ∧
      ∃ b, _determineIsPrime 25 = some b ∧ (b = true ↔ Nat.Prime (25 : Int).toNat) :=
  ⟨⟨by decide, by decide, by decide⟩,
    determineIsPrime_correct 25 (by decide) (by decide) (by decide)⟩

/-- C13: for every non-negative integer `num`, `_determineIsPrime(num)` returns; it returns
`false` if and only if an odd integer `i ≥ 3` with `i*i ≤ num` divides `num`, and `true`
otherwise. -/
theorem determineIsPrime_false_iff (num : Int) (h : 0 ≤ num) :
    ∃ b, _determineIsPrime num = some b ∧
      (b = false ↔ ∃ i : Int, i % 2 = 1 ∧ 3 ≤ i ∧ i * i ≤ num ∧ i ∣ num) ∧
      ((¬ ∃ i : Int, i % 2 = 1 ∧ 3 ≤ i ∧ i * i ≤ num ∧ i ∣ num) → b = true) := by
  have _ := h
  obtain ⟨b, hb, hiff⟩ := determineIsPrime_spec num
  have hiff' : b = false ↔ ∃ i : Int, i % 2 = 1 ∧ 3 ≤ i ∧ i * i ≤ num ∧ i ∣ num := by
    rw [hiff]
    constructor
    · rintro ⟨d, h1, h2, h3, h4⟩
      exact ⟨d, h2, h1, h3, h4⟩
    · rintro ⟨d, h1, h2, h3, h4⟩
      exact ⟨d, h2, h1, h3, h4⟩
  refine ⟨b, hb, hiff', fun hno => ?_⟩
  cases b with
  | true => rfl
  | false => exact absurd (hiff'.1 rfl) hno

theorem determineIsPrime_false_iff_witness :
    (0 : Int) ≤ 49 ∧ ∃ b, _determineIsPrime 49 = some b ∧
      (b = false ↔ ∃ i : Int, i % 2 = 1 ∧ 3 ≤ i ∧ i * i ≤ 49 ∧ i ∣ 49) ∧
      ((¬ ∃ i : Int, i % 2 = 1 ∧ 3 ≤ i ∧ i * i ≤ 49 ∧ i ∣ 49) → b = true) :=
  ⟨by decide, determineIsPrime_false_iff 49 (by decide)⟩

/-- C14: for every positive integer `num` other than 2 and 3 whose remainder modulo 6 is
neither 1 nor 5, `isPrime(num)` returns `false` whatever the helper is, that is without
calling it, and every such `num` greater than 3 is composite; every even positive number has
such a remainder. -/
theorem isPrime_wheel_reject (num : Int) (hpos : 0 < num) (h2 : num ≠ 2) (h3 : num ≠ 3)
    (h6 : Int.tmod num 6 ≠ 1 ∧ Int.tmod num 6 ≠ 5) :
    isPrime num = some false ∧
      (isPrime num = isPrimeWith _determineIsPrime num ∧
        ∀ helper : Int → Option Bool, isPrimeWith helper num = some false) ∧
      (3 < num → 1 < num ∧ ¬ Nat.Prime num.toNat) ∧
      (∀ m : Int, 0 < m → Int.tmod m 2 = 0 → Int.tmod m 6 ≠ 1 ∧ Int.tmod m 6 ≠ 5) := by
  have hmod6 : Int.tmod num 6 = num % 6 := Int.tmod_eq_emod (by omega) (by decide)
  have h6' : num % 6 ≠ 1 ∧ num % 6 ≠ 5 := by
    rw [← hmod6]
    exact h6
  have h1 : num ≠ 1 := by
    rintro rfl
    exact h6.1 (by decide)
  have hall : ∀ helper : Int → Option Bool, isPrimeWith helper num = some false :=
    fun helper => isPrimeWith_reject helper num h1 h2 h3 (Or.inr h6)
  refine ⟨?_, ⟨rfl, hall⟩, fun hgt => ⟨by omega, fun hp => ?_⟩, fun m hm hev => ?_⟩
  · rw [isPrime_eq_isPrimeWith]
    exact hall _
  · have hcases : (2 : Nat) ∣ num.toNat ∨ (3 : Nat) ∣ num.toNat := by omega
    rcases hcases with hd | hd
    · rcases (Nat.dvd_prime hp).1 hd with h | h
      · omega
      · omega
    · rcases (Nat.dvd_prime hp).1 hd with h | h
      · omega
      · omega
  · rw [Int.tmod_eq_emod (by omega) (by decide)] at hev
    rw [Int.tmod_eq_emod (by omega) (by decide)]
    omega

theorem isPrime_wheel_reject_witness :
    ((0 : Int) < 9 ∧ (9 : Int) ≠ 2 ∧ (9 : Int) ≠ 3 ∧
      (Int.tmod 9 6 ≠ 1 ∧ Int.tmod 9 6 ≠ 5)) ∧
    (isPrime 9 = some false ∧
      (isPrime 9 = isPrimeWith _determineIsPrime 9 ∧
        ∀ helper : Int → Option Bool, isPrimeWith helper 9 = some false) ∧
      ((3 : Int) < 9 → (1 : Int) < 9 ∧ ¬ Nat.Prime (9 : Int).toNat) ∧
      (∀ m : Int, 0 < m → Int.tmod m 2 = 0 → Int.tmod m 6 ≠ 1 ∧ Int.tmod m 6 ≠ 5)) :=
  ⟨⟨by decide, by decide, by decide, by decide⟩,
    isPrime_wheel_reject 9 (by decide) (by decide) (by decide) (by decide)⟩

/-- C15: for every integer `limit ≥ 2`, the sieve whose elimination loop runs `base` over
`base*base ≤ limit` returns, and returns exactly the set that `buildPrimesSet(limit)`
returns. -/
theorem buildPrimesSetSqrt_same (limit : Int) (h : 2 ≤ limit) :
    ∃ s, buildPrimesSet limit = some s ∧ buildPrimesSetSqrt limit = some s := by
  have _ := h
  obtain ⟨s, hs, _⟩ := buildPrimesSet_spec limit
  refine ⟨s, hs, ?_⟩
  rw [buildPrimesSetSqrt_eq_buildPrimesSet, hs]

theorem buildPrimesSetSqrt_same_witness :
    (2 : Int) ≤ 30 ∧ ∃ s, buildPrimesSet 30 = some s ∧ buildPrimesSetSqrt 30 = some s :=
  ⟨by decide, buildPrimesSetSqrt_same 30 (by decide)⟩

/-- C16: for every integer `limit`, `buildPrimesSet(limit)` is a subset of the initial
candidate set `{2} ∪ {2n+1 : 1 ≤ n ≤ floor(limit/2) - 1}`, and a candidate is absent from the
result if and only if it is a product `base*k` of integers `base ≥ 2` and `k ≥ 2`. -/
theorem buildPrimesSet_only_removes (limit : Int) :
    ∃ c s, initialCandidates limit = some c ∧ buildPrimesSet limit = some s ∧
      (∀ x, x ∈ c ↔ x = 2 ∨ ∃ n : Int, 1 ≤ n ∧ n ≤ Int.fdiv limit 2 - 1 ∧ x = 2 * n + 1) ∧
      (∀ x, x ∈ s → x ∈ c) ∧
      (∀ x, x ∈ c → (x ∉ s ↔ ∃ base k : Int, 2 ≤ base ∧ 2 ≤ k ∧ x = base * k)) := by
  obtain ⟨c, hc, hmemc⟩ := initialCandidates_spec limit
  obtain ⟨s, hs, hmem⟩ := buildPrimesSet_spec limit
  rw [Int.fdiv_eq_ediv limit (by decide : (0 : Int) ≤ 2)]
  refine ⟨c, s, hc, hs, fun x => ?_, fun x hx => ?_, fun x hx => ?_⟩
  · rw [hmemc]
    constructor
    · rintro (h | ⟨m, h1, h2, h3⟩)
      · exact Or.inl h
      · exact Or.inr ⟨m, h1, h2, by omega⟩
    · rintro (h | ⟨m, h1, h2, h3⟩)
      · exact Or.inl h
      · exact Or.inr ⟨m, h1, h2, by omega⟩
  · exact (hmemc x).2 ((hmem x).1 hx).1
  · have hcand := (hmemc x).1 hx
    constructor
    · intro hns
      by_contra hno
      apply hns
      refine (hmem x).2 ⟨hcand, ?_⟩
      rintro ⟨b, k, hb, _, hk, hxe, _⟩
      exact hno ⟨b, k, hb, hk, hxe⟩
    · rintro ⟨b, k, hb, hk, hxe⟩ hxs
      apply ((hmem x).1 hxs).2
      have h2k : b * 2 ≤ b * k := by nlinarith
      have h4 : 4 ≤ b * k := by nlinarith
      rcases hcand with h | ⟨m, h1, h2, h3⟩
      · omega
      · exact ⟨b, k, hb, by omega, hk, hxe, by omega⟩

/-- C17: for every odd integer `num ≥ 5`, `isPrime(num)` and `_determineIsPrime(num)` return
the same answer. -/
theorem isPrime_eq_determineIsPrime (num : Int) (h5 : 5 ≤ num) (hodd : num % 2 = 1) :
    isPrime num = _determineIsPrime num ∧ ∃ b, _determineIsPrime num = some b := by
  obtain ⟨b, hb, hiff⟩ := determineIsPrime_spec num
  refine ⟨?_, b, hb⟩
  have hmod2 : Int.tmod num 2 = num % 2 := Int.tmod_eq_emod (by omega) (by decide)
  have hmod6 : Int.tmod num 6 = num % 6 := Int.tmod_eq_emod (by omega) (by decide)
  unfold isPrime
  rw [if_neg (by omega), if_neg (by omega), hmod2, if_neg (by omega)]
  simp only [hmod6]
  by_cases hsix : num % 6 ≠ 1 ∧ num % 6 ≠ 5
  · rw [if_pos hsix]
    have hbf : b = false := hiff.2 ⟨3, by decide, by decide, by omega, by omega⟩
    rw [hb, hbf]
  · rw [if_neg hsix]

theorem isPrime_eq_determineIsPrime_witness :
    ((5 : Int) ≤ 9 ∧ (9 : Int) % 2 = 1) ∧
      (isPrime 9 = _determineIsPrime 9 ∧ ∃ b, _determineIsPrime 9 = some b) :=
  ⟨⟨by decide, by decide⟩, isPrime_eq_determineIsPrime 9 (by decide) (by decide)⟩

/-- C18: for every integer `num ≤ 0`, `isPrime(num)` returns `false` whatever the helper is,
that is without reaching it: an even `num` has remainder 0 by 2, and the remainder of `num` by 6
is never positive, so it is neither 1 nor 5. -/
theorem isPrime_nonpos (num : Int) (h : num ≤ 0) :
    isPrime num = some false ∧
      (∀ helper : Int → Option Bool, isPrimeWith helper num = some false) ∧
      (num % 2 = 0 → Int.tmod num 2 = 0) ∧
      (Int.tmod num 6 ≤ 0 ∧ Int.tmod num 6 ≠ 1 ∧ Int.tmod num 6 ≠ 5) := by
  have h2 := tmod_of_nonpos num 2 h (by decide)
  have h6 := tmod_of_nonpos num 6 h (by decide)
  have hsix : Int.tmod num 6 ≤ 0 ∧ Int.tmod num 6 ≠ 1 ∧ Int.tmod num 6 ≠ 5 := by
    rw [h6]
    omega
  have hall : ∀ helper : Int → Option Bool, isPrimeWith helper num = some false :=
    fun helper =>
      isPrimeWith_reject helper num (by omega) (by omega) (by omega) (Or.inr ⟨hsix.2.1, hsix.2.2⟩)
  refine ⟨?_, hall, fun hev => ?_, hsix⟩
  · rw [isPrime_eq_isPrimeWith]
    exact hall _
  · rw [h2]
    omega

theorem isPrime_nonpos_witness :
    (-7 : Int) ≤ 0 ∧ (isPrime (-7) = some false ∧
      (∀ helper : Int → Option Bool, isPrimeWith helper (-7) = some false) ∧
      ((-7 : Int) % 2 = 0 → Int.tmod (-7) 2 = 0) ∧
      (Int.tmod (-7) 6 ≤ 0 ∧ Int.tmod (-7) 6 ≠ 1 ∧ Int.tmod (-7) 6 ≠ 5)) :=
  ⟨by decide, isPrime_nonpos (-7) (by decide)⟩

/-- C19: for all integers `a ≤ b`, `buildPrimesSet(a)` and `buildPrimesSet(b)` both return, and
every element of the first is an element of the second. -/
theorem buildPrimesSet_mono (a b : Int) (h : a ≤ b) :
    ∃ sa sb, buildPrimesSet a = some sa ∧ buildPrimesSet b = some sb ∧
      ∀ x, x ∈ sa → x ∈ sb := by
  by_cases ha : 2 ≤ a
  · obtain ⟨sa, hsa, hmema⟩ := buildPrimesSet_primes a ha
    obtain ⟨sb, hsb, hmemb⟩ := buildPrimesSet_primes b (by omega)
    refine ⟨sa, sb, hsa, hsb, fun x hx => ?_⟩
    obtain ⟨hp, hle⟩ := (hmema x).1 hx
    exact (hmemb x).2 ⟨hp, by omega⟩
  · obtain ⟨sa, hsa, hmema⟩ := buildPrimesSet_spec a
    obtain ⟨sb, hsb, h2b⟩ := two_mem_buildPrimesSet b
    refine ⟨sa, sb, hsa, hsb, fun x hx => ?_⟩
    rcases ((hmema x).1 hx).1 with rfl | ⟨m, h1, h2, _⟩
    · exact h2b
    · omega

theorem buildPrimesSet_mono_witness :
    (10 : Int) ≤ 11 ∧ ∃ sa sb, buildPrimesSet 10 = some sa ∧ buildPrimesSet 11 = some sb ∧
      ∀ x, x ∈ sa → x ∈ sb :=
  ⟨by decide, buildPrimesSet_mono 10 11 (by decide)⟩

end JsIsPrime
